import Mathlib

/-!
# Verification of the realtime conversation synchronization engine

Shallow embedding of the client-side messaging engine of the repository:
the message-store reducer, the outbound send pipeline, the event
coalescer, the channel retry/backoff logic, the thread-list reducer and
the proximity/anonymity toggle, together with theorems settling the
stated properties.

Sources embedded:
- `app/messages/[id].tsx` (`messagesReducer`, `sortMessagesAsc`,
  `mapServerMessage`, `handleSend`, `handleRetry`,
  `processBatchedEvents` / `queueEvent`, `checkAnonymity`);
- `src/utils/realtime.ts` (`calculateBackoff`, `attemptRetry`,
  `maxRetries`);
- the thread-list screen (`threadsReducer`,
  `processBatchedEvents` / `queueEvent` with the 50ms window).

Timestamps (`sentAt` / `created_at`, ISO strings parsed with
`new Date(x).getTime()` in the source) are modelled as the parsed
numeric instants, i.e. natural numbers.
-/

namespace Zenlit

/-- Local delivery status of a chat message
(`MessageStatus` in `src/components/messaging/MessageBubble.tsx`,
values used by `app/messages/[id].tsx`). -/
inductive MessageStatus where
  | pending
  | sent
  | delivered
  | read
  | failed
deriving DecidableEq, Repr

/-- The `ChatMsg` view-model of `app/messages/[id].tsx`:
`{ id, text, sentAt, fromMe, status }`.  `sentAt` is the parsed
timestamp (the source keeps the ISO string and parses it inside every
comparator). -/
structure ChatMsg where
  id : String
  text : String
  sentAt : Nat
  fromMe : Bool
  status : MessageStatus
deriving DecidableEq, Repr

/-- A `Partial<ChatMsg>` as dispatched with `UPDATE_MESSAGE`:
every field optional; a missing field leaves the message unchanged
(object spread `{ ...msg, ...updates }`). -/
structure ChatMsgPatch where
  id : Option String := none
  text : Option String := none
  sentAt : Option Nat := none
  fromMe : Option Bool := none
  status : Option MessageStatus := none
deriving DecidableEq, Repr

/-- Object spread `{ ...m, ...p }` for a `Partial<ChatMsg>` patch. -/
def applyPatch (p : ChatMsgPatch) (m : ChatMsg) : ChatMsg :=
  { id := p.id.getD m.id
    text := p.text.getD m.text
    sentAt := p.sentAt.getD m.sentAt
    fromMe := p.fromMe.getD m.fromMe
    status := p.status.getD m.status }

/-- `MessagesState` of `app/messages/[id].tsx`. -/
structure MessagesState where
  messages : List ChatMsg
  hasMore : Bool
  isFetchingMore : Bool
deriving DecidableEq, Repr

/-- `MessagesAction` of `app/messages/[id].tsx`. -/
inductive MessagesAction where
  | setMessages (messages : List ChatMsg) (hasMore : Bool)
  | prependMessages (messages : List ChatMsg) (hasMore : Bool)
  | upsertMessage (message : ChatMsg)
  | updateMessage (id : String) (updates : ChatMsgPatch)
  | setFetchingMore (isFetchingMore : Bool)

/-- One step of the stable ascending sort on parsed `sentAt`:
insert `m` after every element whose timestamp is strictly smaller,
before the first element whose timestamp is `≥` (so that, among equal
timestamps, earlier elements stay first, as JavaScript's stable
`Array.prototype.sort` guarantees for the comparator
`(a, b) => new Date(a.sentAt).getTime() - new Date(b.sentAt).getTime()`). -/
def insertByTime (m : ChatMsg) : List ChatMsg → List ChatMsg
  | [] => [m]
  | h :: t => if h.sentAt < m.sentAt then h :: insertByTime m t else m :: h :: t

/-- `sortMessagesAsc` of `app/messages/[id].tsx`: the stable ascending
sort by parsed `sentAt` (`[...list].sort((a, b) => ta - tb)`); a stable
sort is extensionally unique, realised here as stable insertion sort. -/
def sortMessagesAsc (l : List ChatMsg) : List ChatMsg :=
  l.foldr insertByTime []

/-- `state.messages.findIndex((m) => m.id === id) >= 0`:
whether some stored message already carries the id. -/
def containsId (i : String) (l : List ChatMsg) : Bool :=
  l.any (fun m => m.id == i)

/-- The `existingIndex >= 0` branch of `UPSERT_MESSAGE`: copy the list
and overwrite the element at the first index whose id matches
(`newMessages[existingIndex] = action.message`). -/
def replaceFirstById (m : ChatMsg) : List ChatMsg → List ChatMsg
  | [] => []
  | h :: t => if h.id == m.id then m :: t else h :: replaceFirstById m t

/-- The found branch of `UPDATE_MESSAGE`: overwrite the element at the
first index whose id matches with its patched copy
(`newMessages[index] = { ...newMessages[index], ...action.updates }`). -/
def updateFirstById (i : String) (p : ChatMsgPatch) : List ChatMsg → List ChatMsg
  | [] => []
  | h :: t => if h.id == i then applyPatch p h :: t else h :: updateFirstById i p t

/-- `messagesReducer` of `app/messages/[id].tsx`, case by case:
`SET_MESSAGES` replaces and sorts; `PREPEND_MESSAGES` drops incoming
messages whose id is already present, prepends the rest and sorts;
`UPSERT_MESSAGE` replaces in place by id or appends, then sorts;
`UPDATE_MESSAGE` patches the matching entry in place (no sort) and is a
no-op when the id is absent; `SET_FETCHING_MORE` only flips the flag. -/
def messagesReducer (state : MessagesState) (action : MessagesAction) : MessagesState :=
  match action with
  | .setMessages messages hasMore =>
      { state with messages := sortMessagesAsc messages, hasMore := hasMore }
  | .prependMessages messages hasMore =>
      let newMessages := messages.filter (fun m => !containsId m.id state.messages)
      { state with
        messages := sortMessagesAsc (newMessages ++ state.messages)
        hasMore := hasMore }
  | .upsertMessage message =>
      let newMessages :=
        if containsId message.id state.messages then
          replaceFirstById message state.messages
        else
          state.messages ++ [message]
      { state with messages := sortMessagesAsc newMessages }
  | .updateMessage i updates =>
      if containsId i state.messages then
        { state with messages := updateFirstById i updates state.messages }
      else
        state
  | .setFetchingMore b => { state with isFetchingMore := b }

/-- The initial reducer state passed to `useReducer` in
`app/messages/[id].tsx`: `{ messages: [], hasMore: true,
isFetchingMore: false }`. -/
def initialMessagesState : MessagesState :=
  { messages := [], hasMore := true, isFetchingMore := false }

/-- A persisted `Message` row as delivered by the server (direct
response of `sendMessage` or realtime payload): the fields read by
`mapServerMessage` and the guards of `app/messages/[id].tsx`
(`id`, `sender_id`, `receiver_id`, `text`, `created_at`,
`delivered_at`, `read_at`); `text` is nullable (`msg.text || ''`),
timestamps are the parsed instants. -/
structure ServerMessage where
  id : String
  sender_id : String
  receiver_id : String
  text : Option String := none
  created_at : Nat
  delivered_at : Option Nat := none
  read_at : Option Nat := none
deriving DecidableEq, Repr

/-- `mapServerMessage` of `app/messages/[id].tsx`: without a current
user id every message maps to a foreign `sent` message; otherwise
`fromMe` compares `sender_id`, and an own message is `read` when
`read_at` is set, else `delivered` when `delivered_at` is set, else
`sent`; foreign messages are always `sent`. -/
def mapServerMessage (currentUserId : Option String) (msg : ServerMessage) : ChatMsg :=
  match currentUserId with
  | none =>
      { id := msg.id
        text := msg.text.getD ""
        sentAt := msg.created_at
        fromMe := false
        status := .sent }
  | some uid =>
      let fromMe := msg.sender_id == uid
      let status : MessageStatus :=
        if fromMe then
          if msg.read_at.isSome then .read
          else if msg.delivered_at.isSome then .delivered
          else .sent
        else .sent
      { id := msg.id
        text := msg.text.getD ""
        sentAt := msg.created_at
        fromMe := fromMe
        status := status }

/-- JavaScript's `text.trim()` as used by `handleSend`: strip leading
and trailing whitespace. -/
def jsTrim (s : String) : String :=
  String.mk (((s.data.dropWhile Char.isWhitespace).reverse.dropWhile
    Char.isWhitespace).reverse)

/-- Outcome of the awaited `sendMessage(otherUserId, body, messageId)`
call: either the persisted record (the direct server echo) or a
failure (`error` set, `message` missing, or a thrown exception). -/
inductive SendResult where
  | ok (message : ServerMessage)
  | err
deriving DecidableEq, Repr

/-- The optimistic message built by `handleSend`:
`{ id: messageId, text: body, sentAt: nowIso, fromMe: true,
status: 'pending' }`. -/
def optimisticMessage (messageId body : String) (now : Nat) : ChatMsg :=
  { id := messageId, text := body, sentAt := now, fromMe := true, status := .pending }

/-- `handleSend` of `app/messages/[id].tsx` as a state transformer.
The screen trims the text and returns early when the trimmed body is
empty; otherwise it builds the optimistic `pending` message under the
freshly generated client id (`generateUUID()`), dispatches
`UPSERT_MESSAGE` with it BEFORE the network call, then awaits
`sendMessage` carrying the same id: on success it upserts the mapped
server echo, on failure it marks the entry `failed` via
`UPDATE_MESSAGE`.  The result pairs the final store state with the
list of `(messageId, body)` submissions handed to `sendMessage`, in
order, so that the absence of hidden or repeated network calls is part
of the model.  `messageId` stands for the value of `generateUUID()`
(in `src/utils/uuid.ts`, outside the embedded engine), `now` for
`new Date().toISOString()` parsed, `result` for the awaited outcome. -/
def handleSend (currentUserId : Option String) (text : String) (messageId : String)
    (now : Nat) (result : SendResult) (state : MessagesState) :
    MessagesState × List (String × String) :=
  let body := jsTrim text
  if body = "" then (state, [])
  else
    let s1 := messagesReducer state (.upsertMessage (optimisticMessage messageId body now))
    match result with
    | .ok message =>
        (messagesReducer s1 (.upsertMessage (mapServerMessage currentUserId message)),
         [(messageId, body)])
    | .err =>
        (messagesReducer s1 (.updateMessage messageId { status := some .failed }),
         [(messageId, body)])

/-- `handleRetry` of `app/messages/[id].tsx` as a state transformer.
It first dispatches `UPDATE_MESSAGE` on the OLD entry's id, setting
`status: pending` and `sentAt: retryTimestamp`; then it generates a
fresh client id (`retryId = generateUUID()`) and submits the old body
under that fresh id; on success it upserts the mapped server echo
(whose id is the fresh `retryId`), on failure it marks the OLD entry
`failed` again.  As for `handleSend`, the second component records the
`(messageId, body)` submissions made. -/
def handleRetry (currentUserId : Option String) (message : ChatMsg) (retryId : String)
    (retryTimestamp : Nat) (result : SendResult) (state : MessagesState) :
    MessagesState × List (String × String) :=
  let s1 := messagesReducer state
    (.updateMessage message.id { status := some .pending, sentAt := some retryTimestamp })
  match result with
  | .ok sentMessage =>
      (messagesReducer s1 (.upsertMessage (mapServerMessage currentUserId sentMessage)),
       [(retryId, message.text)])
  | .err =>
      (messagesReducer s1 (.updateMessage message.id { status := some .failed }),
       [(retryId, message.text)])

/-! ## Event coalescer

`queueEvent` / `processBatchedEvents`, identical in
`app/messages/[id].tsx` (30ms window) and the thread-list screen
(50ms window): closures are pushed onto `eventQueueRef`, and each push
clears and re-arms one debounce timer; when the timer fires the queue
is copied, cleared, and every closure in the copy runs in order. -/

/-- The coalescer's mutable state: the queued closures (abstract
elements of `α`) and the pending debounce timer with its delay in
milliseconds (`none` when no timer is armed). -/
structure Coalescer (α : Type) where
  queue : List α
  delayMs : Nat
  timer : Option Nat
deriving DecidableEq, Repr

/-- `queueEvent(fn)`: push the closure and (re)arm the single debounce
timer with the screen's delay. -/
def queueEvent {α : Type} (c : Coalescer α) (a : α) : Coalescer α :=
  { c with queue := c.queue ++ [a], timer := some c.delayMs }

/-- `processBatchedEvents()` on timer fire: early return on an empty
queue; otherwise copy the queue, clear it, and run the copied closures
in FIFO order.  The second component is the batch that ran, in
execution order. -/
def processBatchedEvents {α : Type} (c : Coalescer α) : Coalescer α × List α :=
  if c.queue.isEmpty then (c, [])
  else ({ c with queue := [], timer := none }, c.queue)

/-- The conversation-detail coalescer starts empty with a 30ms
debounce window (`setTimeout(..., 30)` in `app/messages/[id].tsx`). -/
def chatCoalescer (α : Type) : Coalescer α :=
  { queue := [], delayMs := 30, timer := none }

/-- The thread-list coalescer starts empty with a 50ms debounce window
(`setTimeout(..., 50)` in the thread-list screen). -/
def listCoalescer (α : Type) : Coalescer α :=
  { queue := [], delayMs := 50, timer := none }

/-! ## Channel retry / backoff (`src/utils/realtime.ts`) -/

/-- `RealtimeManager.maxRetries = 4`. -/
def maxRetries : Nat := 4

/-- `RealtimeManager.calculateBackoff()`:
`Math.min(1000 * Math.pow(2, this.retryCount), 16000)` evaluated at
the manager's current `retryCount`. -/
def calculateBackoff (retryCount : Nat) : Nat :=
  min (1000 * 2 ^ retryCount) 16000

/-- `RealtimeManager.attemptRetry()` restricted to its effect on
`retryCount` and the scheduled delay: when `retryCount >= maxRetries`
it gives up (no timer armed); otherwise it INCREMENTS `retryCount`
first and only then computes the backoff from the incremented value,
arming `setTimeout(resubscribe, backoff)`.  Returns the new
`retryCount` and the scheduled delay (`none` when it gave up). -/
def attemptRetry (retryCount : Nat) : Nat × Option Nat :=
  if retryCount ≥ maxRetries then (retryCount, none)
  else (retryCount + 1, some (calculateBackoff (retryCount + 1)))

/-- The retry counter after `n` consecutive recoverable failures from
a fresh manager (`retryCount = 0`), paired with the list of delays
scheduled along the way (`none` entries mark failures where the
manager had already given up). -/
def consecutiveFailures : Nat → Nat × List (Option Nat)
  | 0 => (0, [])
  | n + 1 =>
      let (rc, ds) := consecutiveFailures n
      let (rc', d) := attemptRetry rc
      (rc', ds ++ [d])

/-! ## Thread list synchronizer (thread-list screen) -/

/-- A conversation summary row.  Modelled from the spec: the
`MessageThread` type is declared in `src/services` which is not part
of the sources; §3 gives the aggregate view (participantId,
lastMessage, unreadCount, anonymityFlag) and the thread-list screen
reads `other_user_id`, `other_user` (profile data, opaque here),
`last_message` (a persisted message row), `unread_count` and
`is_anonymous`. -/
structure MessageThread where
  other_user_id : String
  other_user : String
  last_message : ServerMessage
  unread_count : Nat
  is_anonymous : Bool
deriving DecidableEq, Repr

/-- `ThreadsState` of the thread-list screen. -/
structure ThreadsState where
  threads : List MessageThread
  loading : Bool
  initialLoadComplete : Bool
deriving DecidableEq, Repr

/-- `ThreadsAction` of the thread-list screen. -/
inductive ThreadsAction where
  | setLoading (loading : Bool)
  | setThreads (threads : List MessageThread)
  | upsertThread (thread : MessageThread)
  | updateThreadMessage (otherUserId : String) (message : ServerMessage)
  | updateThreadAnonymity (otherUserId : String) (isAnonymous : Bool)
  | initialLoadComplete
  | mergeNewThreads (threads : List MessageThread)

/-- One step of the stable descending sort on
`last_message.created_at`: keep elements with strictly greater
timestamps first; among equal timestamps earlier elements stay first
(JavaScript's stable sort with comparator `(a, b) => tb - ta`). -/
def insertByTimeDesc (m : MessageThread) : List MessageThread → List MessageThread
  | [] => [m]
  | h :: t =>
      if m.last_message.created_at < h.last_message.created_at then
        h :: insertByTimeDesc m t
      else
        m :: h :: t

/-- The `newThreads.sort((a, b) => tb - ta)` most-recent-first sort of
the thread-list reducer, realised as stable insertion sort. -/
def sortThreadsDesc (l : List MessageThread) : List MessageThread :=
  l.foldr insertByTimeDesc []

/-- `threads.findIndex((t) => t.other_user_id === id) >= 0`. -/
def containsThreadId (i : String) (l : List MessageThread) : Bool :=
  l.any (fun t => t.other_user_id == i)

/-- The found branch of `UPSERT_THREAD`: overwrite the row at the
first index whose `other_user_id` matches. -/
def replaceFirstThread (m : MessageThread) : List MessageThread → List MessageThread
  | [] => []
  | h :: t =>
      if h.other_user_id == m.other_user_id then m :: t else h :: replaceFirstThread m t

/-- The found branch of `UPDATE_THREAD_MESSAGE`: replace the matching
row's `last_message` (`{ ...thread, last_message: action.message }`). -/
def setThreadMessage (i : String) (msg : ServerMessage) :
    List MessageThread → List MessageThread
  | [] => []
  | h :: t =>
      if h.other_user_id == i then { h with last_message := msg } :: t
      else h :: setThreadMessage i msg t

/-- The found branch of `UPDATE_THREAD_ANONYMITY`: replace the
matching row's `is_anonymous`
(`{ ...thread, is_anonymous: action.isAnonymous }`). -/
def setThreadAnonymity (i : String) (b : Bool) :
    List MessageThread → List MessageThread
  | [] => []
  | h :: t =>
      if h.other_user_id == i then { h with is_anonymous := b } :: t
      else h :: setThreadAnonymity i b t

/-- `threadsReducer` of the thread-list screen, case by case:
`SET_LOADING` flips the flag; `SET_THREADS` replaces the rows and
clears `loading`; `UPSERT_THREAD` replaces in place by participant or
prepends, then re-sorts most-recent-first; `UPDATE_THREAD_MESSAGE`
replaces the matching row's `last_message` and re-sorts (no-op when
the participant has no row yet); `UPDATE_THREAD_ANONYMITY` flips only
the matching row's `is_anonymous`, without sorting (no-op when
absent); `INITIAL_LOAD_COMPLETE` sets the flag and clears `loading`;
`MERGE_NEW_THREADS` appends only rows whose participant is not
already present, then re-sorts (returning the state unchanged when
nothing is new). -/
def threadsReducer (state : ThreadsState) (action : ThreadsAction) : ThreadsState :=
  match action with
  | .setLoading b => { state with loading := b }
  | .setThreads threads => { state with threads := threads, loading := false }
  | .upsertThread thread =>
      let newThreads :=
        if containsThreadId thread.other_user_id state.threads then
          replaceFirstThread thread state.threads
        else
          thread :: state.threads
      { state with threads := sortThreadsDesc newThreads }
  | .updateThreadMessage otherUserId message =>
      if containsThreadId otherUserId state.threads then
        { state with
          threads := sortThreadsDesc (setThreadMessage otherUserId message state.threads) }
      else
        state
  | .updateThreadAnonymity otherUserId isAnonymous =>
      if containsThreadId otherUserId state.threads then
        { state with threads := setThreadAnonymity otherUserId isAnonymous state.threads }
      else
        state
  | .initialLoadComplete =>
      { state with initialLoadComplete := true, loading := false }
  | .mergeNewThreads threads =>
      let newThreads := threads.filter (fun t => !containsThreadId t.other_user_id state.threads)
      if newThreads.isEmpty then state
      else { state with threads := sortThreadsDesc (state.threads ++ newThreads) }

/-! ## Proximity / anonymity toggle (`app/messages/[id].tsx`) -/

/-- The conversation screen's state relevant to the nearness signal:
the message store and the `isAnonymous` presentation flag. -/
structure ChatScreenState where
  messagesState : MessagesState
  isAnonymous : Bool
deriving DecidableEq, Repr

/-- `checkAnonymity` of `app/messages/[id].tsx` given the fresh
boolean returned by the external `isUserNearby` capability: it only
runs `setIsAnonymous(!isNearby)`; the message store is not touched. -/
def checkAnonymity (isNearby : Bool) (s : ChatScreenState) : ChatScreenState :=
  { s with isAnonymous := !isNearby }

/-! ## Helper lemmas about the sort -/

/-- The store is ascending in parsed `sentAt`. -/
def SortedByTime (l : List ChatMsg) : Prop :=
  l.Pairwise (fun a b => a.sentAt ≤ b.sentAt)

/-- The store carries pairwise distinct message ids. -/
def UniqueIds (l : List ChatMsg) : Prop :=
  (l.map (fun m => m.id)).Nodup

theorem perm_insertByTime (m : ChatMsg) (l : List ChatMsg) :
    List.Perm (insertByTime m l) (m :: l) := by
  induction l with
  | nil => simp [insertByTime]
  | cons h t ih =>
      simp only [insertByTime]
      by_cases hc : h.sentAt < m.sentAt
      · simp only [hc, if_true]
        exact (ih.cons h).trans (List.Perm.swap m h t)
      · simp [hc]

theorem sortMessagesAsc_perm (l : List ChatMsg) : List.Perm (sortMessagesAsc l) l := by
  induction l with
  | nil => rfl
  | cons h t ih =>
      simpa [sortMessagesAsc] using
        (perm_insertByTime h (List.foldr insertByTime [] t)).trans (ih.cons h)

theorem sortedByTime_insertByTime (m : ChatMsg) (l : List ChatMsg)
    (hl : SortedByTime l) : SortedByTime (insertByTime m l) := by
  induction l with
  | nil => simp [insertByTime, SortedByTime]
  | cons h t ih =>
      rcases List.pairwise_cons.mp hl with ⟨hh, ht⟩
      simp only [insertByTime]
      by_cases hc : h.sentAt < m.sentAt
      · simp only [hc, if_true]
        refine List.pairwise_cons.mpr ⟨?_, ih ht⟩
        intro x hx
        have hx' : x ∈ m :: t := (perm_insertByTime m t).mem_iff.mp hx
        rcases List.mem_cons.mp hx' with hx' | hx'
        · subst hx'; exact Nat.le_of_lt hc
        · exact hh x hx'
      · simp only [hc, if_false]
        refine List.pairwise_cons.mpr ⟨?_, hl⟩
        intro x hx
        rcases List.mem_cons.mp hx with hx | hx
        · subst hx; exact Nat.le_of_not_lt hc
        · exact Nat.le_trans (Nat.le_of_not_lt hc) (hh x hx)

theorem sortedByTime_sortMessagesAsc (l : List ChatMsg) :
    SortedByTime (sortMessagesAsc l) := by
  induction l with
  | nil => simp [sortMessagesAsc, SortedByTime]
  | cons h t ih =>
      simpa [sortMessagesAsc] using
        sortedByTime_insertByTime h (List.foldr insertByTime [] t) ih

theorem sortMessagesAsc_eq_of_sorted (l : List ChatMsg) (hl : SortedByTime l) :
    sortMessagesAsc l = l := by
  induction l with
  | nil => rfl
  | cons h t ih =>
      rcases List.pairwise_cons.mp hl with ⟨hh, ht⟩
      have hrec : sortMessagesAsc t = t := ih ht
      show insertByTime h (List.foldr insertByTime [] t) = h :: t
      have hfold : List.foldr insertByTime [] t = t := hrec
      rw [hfold]
      cases t with
      | nil => rfl
      | cons a t' =>
          have : ¬ a.sentAt < h.sentAt :=
            Nat.not_lt.mpr (hh a (List.mem_cons_self a t'))
          simp [insertByTime, this]

/-! ## Helper lemmas about ids, filters and in-place updates -/

theorem containsId_iff (i : String) (l : List ChatMsg) :
    containsId i l = true ↔ ∃ x ∈ l, x.id = i := by
  simp [containsId]

theorem filter_eq_nil_of_not_containsId (i : String) (l : List ChatMsg)
    (h : containsId i l = false) : l.filter (fun m => m.id == i) = [] := by
  induction l with
  | nil => rfl
  | cons a t ih =>
      simp only [containsId, List.any_cons, Bool.or_eq_false_iff] at h
      simp [List.filter_cons, h.1, ih h.2]

theorem applyPatch_id (p : ChatMsgPatch) (m : ChatMsg) (hp : p.id = none) :
    (applyPatch p m).id = m.id := by
  simp [applyPatch, hp]

theorem applyPatch_sentAt (p : ChatMsgPatch) (m : ChatMsg) (hp : p.sentAt = none) :
    (applyPatch p m).sentAt = m.sentAt := by
  simp [applyPatch, hp]

theorem filter_replaceFirstById (m y : ChatMsg) (l : List ChatMsg)
    (h : l.filter (fun x => x.id == m.id) = [y]) :
    (replaceFirstById m l).filter (fun x => x.id == m.id) = [m] := by
  induction l with
  | nil => simp at h
  | cons a t ih =>
      by_cases ha : (a.id == m.id) = true
      · simp only [List.filter_cons, ha, if_true] at h
        have h2 : t.filter (fun x => x.id == m.id) = [] := (List.cons.injEq _ _ _ _ ▸ h).2
        simp [replaceFirstById, ha, List.filter_cons, h2]
      · have ha' : (a.id == m.id) = false := by simpa using ha
        simp only [List.filter_cons, ha', if_false] at h
        simp [replaceFirstById, ha', List.filter_cons, ih h]

theorem replaceFirstById_eq_self (m : ChatMsg) (l : List ChatMsg)
    (h : l.filter (fun x => x.id == m.id) = [m]) :
    replaceFirstById m l = l := by
  induction l with
  | nil => rfl
  | cons a t ih =>
      by_cases ha : (a.id == m.id) = true
      · simp only [List.filter_cons, ha, if_true] at h
        have h1 : a = m := (List.cons.injEq _ _ _ _ ▸ h).1
        simp [replaceFirstById, ha, h1]
      · have ha' : (a.id == m.id) = false := by simpa using ha
        simp only [List.filter_cons, ha', if_false] at h
        simp [replaceFirstById, ha', ih h]

theorem filter_updateFirstById (i : String) (p : ChatMsgPatch) (y : ChatMsg)
    (l : List ChatMsg) (hp : p.id = none)
    (h : l.filter (fun x => x.id == i) = [y]) :
    (updateFirstById i p l).filter (fun x => x.id == i) = [applyPatch p y] := by
  induction l with
  | nil => simp at h
  | cons a t ih =>
      by_cases ha : (a.id == i) = true
      · simp only [List.filter_cons, ha, if_true] at h
        have h1 : a = y := (List.cons.injEq _ _ _ _ ▸ h).1
        have h2 : t.filter (fun x => x.id == i) = [] := (List.cons.injEq _ _ _ _ ▸ h).2
        subst h1
        have hid : ((applyPatch p a).id == i) = true := by
          rw [applyPatch_id p a hp]; exact ha
        simp [updateFirstById, ha, List.filter_cons, hid, h2]
      · have ha' : (a.id == i) = false := by simpa using ha
        simp only [List.filter_cons, ha', if_false] at h
        simp [updateFirstById, ha', List.filter_cons, ih h]

theorem exists_filter_singleton_of_uniqueIds (i : String) (l : List ChatMsg)
    (hN : UniqueIds l) (hc : containsId i l = true) :
    ∃ y, l.filter (fun x => x.id == i) = [y] ∧ y.id = i := by
  induction l with
  | nil => simp [containsId] at hc
  | cons a t ih =>
      have hN' : a.id ∉ t.map (fun m => m.id) ∧ UniqueIds t := by
        simpa [UniqueIds, List.nodup_cons] using hN
      by_cases ha : (a.id == i) = true
      · have haid : a.id = i := by simpa using ha
        have hct : containsId i t = false := by
          by_contra hcontra
          have hct' : containsId i t = true := by
            cases hx : containsId i t
            · exact absurd hx hcontra
            · rfl
          rcases (containsId_iff i t).mp hct' with ⟨x, hx, hxi⟩
          exact hN'.1 (haid ▸ hxi ▸ List.mem_map_of_mem (fun m => m.id) hx)
        refine ⟨a, ?_, haid⟩
        simp [List.filter_cons, ha, filter_eq_nil_of_not_containsId i t hct]
      · have ha' : (a.id == i) = false := by simpa using ha
        have hct : containsId i t = true := by
          simpa [containsId, List.any_cons, ha'] using hc
        rcases ih hN'.2 hct with ⟨y, hy, hyi⟩
        exact ⟨y, by simp [List.filter_cons, ha', hy], hyi⟩

theorem map_id_replaceFirstById (m : ChatMsg) (l : List ChatMsg) :
    (replaceFirstById m l).map (fun x => x.id) = l.map (fun x => x.id) := by
  induction l with
  | nil => rfl
  | cons a t ih =>
      by_cases ha : (a.id == m.id) = true
      · have : a.id = m.id := by simpa using ha
        simp [replaceFirstById, ha, this]
      · have ha' : (a.id == m.id) = false := by simpa using ha
        simp [replaceFirstById, ha', ih]

theorem map_id_updateFirstById (i : String) (p : ChatMsgPatch) (l : List ChatMsg)
    (hp : p.id = none) :
    (updateFirstById i p l).map (fun x => x.id) = l.map (fun x => x.id) := by
  induction l with
  | nil => rfl
  | cons a t ih =>
      by_cases ha : (a.id == i) = true
      · simp [updateFirstById, ha, applyPatch_id p a hp]
      · have ha' : (a.id == i) = false := by simpa using ha
        simp [updateFirstById, ha', ih]

theorem map_sentAt_updateFirstById (i : String) (p : ChatMsgPatch) (l : List ChatMsg)
    (hp : p.sentAt = none) :
    (updateFirstById i p l).map (fun x => x.sentAt) = l.map (fun x => x.sentAt) := by
  induction l with
  | nil => rfl
  | cons a t ih =>
      by_cases ha : (a.id == i) = true
      · simp [updateFirstById, ha, applyPatch_sentAt p a hp]
      · have ha' : (a.id == i) = false := by simpa using ha
        simp [updateFirstById, ha', ih]

theorem length_updateFirstById (i : String) (p : ChatMsgPatch) (l : List ChatMsg) :
    (updateFirstById i p l).length = l.length := by
  induction l with
  | nil => rfl
  | cons a t ih =>
      by_cases ha : (a.id == i) = true
      · simp [updateFirstById, ha]
      · have ha' : (a.id == i) = false := by simpa using ha
        simp [updateFirstById, ha', ih]

/-! ## Upsert-level lemmas -/

theorem filter_sortMessagesAsc_singleton (l : List ChatMsg) (p : ChatMsg → Bool)
    (y : ChatMsg) (h : l.filter p = [y]) :
    (sortMessagesAsc l).filter p = [y] :=
  List.perm_singleton.mp (h ▸ (sortMessagesAsc_perm l).filter p)

/-- After `UPSERT_MESSAGE m` on a store that either does not yet hold
`m.id` or has pairwise-distinct ids, the store holds exactly one entry
with id `m.id`, and it is `m` itself. -/
theorem filter_upsert (s : MessagesState) (m : ChatMsg)
    (h : containsId m.id s.messages = false ∨ UniqueIds s.messages) :
    ((messagesReducer s (.upsertMessage m)).messages).filter (fun x => x.id == m.id)
      = [m] := by
  show ((sortMessagesAsc (if containsId m.id s.messages then
      replaceFirstById m s.messages else s.messages ++ [m])).filter
      (fun x => x.id == m.id)) = [m]
  by_cases hc : containsId m.id s.messages = true
  · rcases h with h | h
    · rw [h] at hc; exact absurd hc (by simp)
    · rcases exists_filter_singleton_of_uniqueIds m.id s.messages h hc with ⟨y, hy, _⟩
      rw [if_pos hc]
      exact filter_sortMessagesAsc_singleton _ _ _ (filter_replaceFirstById m y _ hy)
  · have hc' : containsId m.id s.messages = false := by
      cases hx : containsId m.id s.messages
      · rfl
      · exact absurd hx hc
    rw [if_neg hc]
    refine filter_sortMessagesAsc_singleton _ _ _ ?_
    rw [List.filter_append, filter_eq_nil_of_not_containsId m.id s.messages hc']
    simp

theorem uniqueIds_of_perm {l l' : List ChatMsg} (h : List.Perm l l')
    (hN : UniqueIds l) : UniqueIds l' := by
  unfold UniqueIds at hN ⊢
  exact ((h.map (fun m => m.id)).nodup_iff).mp hN

theorem uniqueIds_sortMessagesAsc (l : List ChatMsg) (hN : UniqueIds l) :
    UniqueIds (sortMessagesAsc l) :=
  uniqueIds_of_perm (sortMessagesAsc_perm l).symm hN

/-- `UPSERT_MESSAGE` preserves distinctness of ids. -/
theorem uniqueIds_upsert (s : MessagesState) (m : ChatMsg)
    (hN : UniqueIds s.messages) :
    UniqueIds ((messagesReducer s (.upsertMessage m)).messages) := by
  show UniqueIds (sortMessagesAsc (if containsId m.id s.messages then
      replaceFirstById m s.messages else s.messages ++ [m]))
  refine uniqueIds_sortMessagesAsc _ ?_
  by_cases hc : containsId m.id s.messages = true
  · rw [if_pos hc]
    show ((replaceFirstById m s.messages).map (fun x => x.id)).Nodup
    rw [map_id_replaceFirstById]
    exact hN
  · have hc' : containsId m.id s.messages = false := by
      cases hx : containsId m.id s.messages
      · rfl
      · exact absurd hx hc
    rw [if_neg hc]
    show ((s.messages ++ [m]).map (fun x => x.id)).Nodup
    rw [List.map_append]
    refine List.Nodup.append hN (by simp) ?_
    intro x hx hy
    simp only [List.map_cons, List.map_nil, List.mem_singleton] at hy
    subst hy
    rcases List.mem_map.mp hx with ⟨z, hz, hzi⟩
    have : containsId m.id s.messages = true :=
      (containsId_iff m.id s.messages).mpr ⟨z, hz, hzi⟩
    rw [this] at hc'
    exact Bool.noConfusion hc'

/-! ## Claim C3: reconnect backoff -/

/-- C3 counterexample: the claim states the k-th consecutively
scheduled reconnect delay equals `min(2^(k-1) * 1s, 16s)`, i.e. the
first delay is 1s.  But `attemptRetry` increments `retryCount` BEFORE
calling `calculateBackoff`, so on the first recoverable failure of a
fresh manager the scheduled delay is `min(1000 * 2^1, 16000) = 2000ms`,
not the claimed `min(1000 * 2^0, 16000) = 1000ms`. -/
theorem backoff_first_delay_is_2s :
    consecutiveFailures 1 = (1, [some 2000]) ∧
    min (1000 * 2 ^ (1 - 1)) 16000 = 1000 ∧ (2000 : Nat) ≠ 1000 := by
  refine ⟨by decide, by decide, by decide⟩

/-- C3 amended: on consecutive recoverable failures the manager
schedules delays of 2s, 4s, 8s, 16s — the k-th delay is
`min(2^k * 1s, 16s)`, doubling from a 2s base and hitting the 16s cap
on the 4th attempt — and stops after 4 attempts: the 5th consecutive
failure schedules nothing. -/
theorem backoff_schedule_amended :
    consecutiveFailures 4 = (4, [some 2000, some 4000, some 8000, some 16000]) ∧
    consecutiveFailures 5 = (4, [some 2000, some 4000, some 8000, some 16000, none]) ∧
    attemptRetry 4 = (4, none) ∧
    calculateBackoff 4 = 16000 := by
  refine ⟨by decide, by decide, by decide, by decide⟩

/-! ## Claim C7: event coalescer -/

theorem foldl_queueEvent_queue {α : Type} (es : List α) (c : Coalescer α) :
    (es.foldl queueEvent c).queue = c.queue ++ es := by
  induction es generalizing c with
  | nil => simp
  | cons e es ih =>
      show ((es.foldl queueEvent (queueEvent c e)).queue) = c.queue ++ e :: es
      rw [ih (queueEvent c e)]
      simp [queueEvent]

/-- C7: for any closures enqueued into the coalescer within one
debounce window, the timer fire runs exactly the enqueued closures —
every one of them, exactly once, in FIFO enqueue order, as one batch —
and leaves the queue empty; no enqueued event is dropped.  The
conversation-detail coalescer debounces with a 30ms window, the
thread-list coalescer with a 50ms window. -/
theorem coalescer_batch_fifo_no_loss (α : Type) (c : Coalescer α) (es : List α) :
    (processBatchedEvents (es.foldl queueEvent c)).2 = c.queue ++ es ∧
    (processBatchedEvents (es.foldl queueEvent c)).1.queue = [] ∧
    (chatCoalescer α).delayMs = 30 ∧ (listCoalescer α).delayMs = 50 := by
  have hq : (es.foldl queueEvent c).queue = c.queue ++ es := foldl_queueEvent_queue es c
  unfold processBatchedEvents
  by_cases he : ((es.foldl queueEvent c).queue).isEmpty = true
  · have hnil : c.queue ++ es = [] := by
      rw [← hq]
      exact List.isEmpty_iff.mp he
    rw [if_pos he]
    exact ⟨hnil.symm, by rw [hq, hnil], rfl, rfl⟩
  · rw [if_neg he]
    exact ⟨hq, rfl, rfl, rfl⟩

/-! ## Claim C10: empty-body guard -/

/-- C10: sending text that is empty (or whitespace-only) after
trimming is a no-op.  The guard `if (!body) return` runs before
`generateUUID()` and before any dispatch or network call, so the
store is unchanged and no submission is made — the conclusion holds
for every candidate id and every would-be network outcome, showing
nothing downstream of the guard is reached. -/
theorem send_blank_text_noop (currentUserId : Option String) (text messageId : String)
    (now : Nat) (result : SendResult) (state : MessagesState)
    (h : jsTrim text = "") :
    handleSend currentUserId text messageId now result state = (state, []) := by
  unfold handleSend
  rw [h]
  simp

/-- Concrete instance of `send_blank_text_noop` at whitespace-only
input. -/
theorem send_blank_text_noop_witness :
    jsTrim "   " = "" ∧
    handleSend (some "u") "   " "c1" 5 .err initialMessagesState
      = (initialMessagesState, []) :=
  ⟨by decide, send_blank_text_noop (some "u") "   " "c1" 5 .err initialMessagesState
    (by decide)⟩

/-! ## Claim C4: upsert idempotence -/

theorem upsert_eq_self_of_filter (s : MessagesState) (m : ChatMsg)
    (hfil : s.messages.filter (fun x => x.id == m.id) = [m])
    (hsorted : SortedByTime s.messages) :
    messagesReducer s (.upsertMessage m) = s := by
  have hmem : m ∈ s.messages := by
    have h1 : m ∈ s.messages.filter (fun x => x.id == m.id) := by
      rw [hfil]; exact List.mem_singleton_self m
    exact List.mem_of_mem_filter h1
  have hcont : containsId m.id s.messages = true :=
    (containsId_iff _ _).mpr ⟨m, hmem, rfl⟩
  have h1 : replaceFirstById m s.messages = s.messages :=
    replaceFirstById_eq_self m _ hfil
  have h2 : sortMessagesAsc s.messages = s.messages :=
    sortMessagesAsc_eq_of_sorted _ hsorted
  show { s with messages := sortMessagesAsc (if containsId m.id s.messages then
      replaceFirstById m s.messages else s.messages ++ [m]) } = s
  rw [if_pos hcont, h1, h2]

/-- C4: on a store with pairwise-distinct ids, applying
`UPSERT_MESSAGE m` twice yields a state identical to applying it
once, and after the first application the store holds exactly one
entry with `m.id` — two broadcasts of the same message id collapse to
a single entry. -/
theorem upsert_idempotent (s : MessagesState) (m : ChatMsg)
    (hN : UniqueIds s.messages) :
    messagesReducer (messagesReducer s (.upsertMessage m)) (.upsertMessage m)
      = messagesReducer s (.upsertMessage m) ∧
    ((messagesReducer s (.upsertMessage m)).messages).filter (fun x => x.id == m.id)
      = [m] := by
  have hfil : ((messagesReducer s (.upsertMessage m)).messages).filter
      (fun x => x.id == m.id) = [m] := filter_upsert s m (Or.inr hN)
  have hsorted : SortedByTime (messagesReducer s (.upsertMessage m)).messages :=
    sortedByTime_sortMessagesAsc _
  exact ⟨upsert_eq_self_of_filter _ m hfil hsorted, hfil⟩

/-- Concrete instance of `upsert_idempotent`: one stored message,
then a double broadcast of a second id. -/
def c4State : MessagesState :=
  { messages := [{ id := "a", text := "x", sentAt := 1, fromMe := false, status := .sent }]
    hasMore := true, isFetchingMore := false }

def c4Msg : ChatMsg :=
  { id := "b", text := "y", sentAt := 2, fromMe := false, status := .sent }

theorem upsert_idempotent_witness :
    UniqueIds c4State.messages ∧
    (messagesReducer (messagesReducer c4State (.upsertMessage c4Msg))
        (.upsertMessage c4Msg) = messagesReducer c4State (.upsertMessage c4Msg) ∧
     ((messagesReducer c4State (.upsertMessage c4Msg)).messages).filter
        (fun x => x.id == c4Msg.id) = [c4Msg]) :=
  ⟨by unfold UniqueIds; decide, upsert_idempotent c4State c4Msg (by unfold UniqueIds; decide)⟩

/-! ## Claim C1: send reconciliation -/

theorem filter_upsert_of_filter_singleton (s : MessagesState) (m y : ChatMsg)
    (h : s.messages.filter (fun x => x.id == m.id) = [y]) :
    ((messagesReducer s (.upsertMessage m)).messages).filter (fun x => x.id == m.id)
      = [m] := by
  have h1 : y ∈ s.messages.filter (fun x => x.id == m.id) := by
    rw [h]; exact List.mem_singleton_self y
  have hcont : containsId m.id s.messages = true :=
    (containsId_iff _ _).mpr
      ⟨y, List.mem_of_mem_filter h1, by simpa using List.of_mem_filter h1⟩
  show ((sortMessagesAsc (if containsId m.id s.messages then
      replaceFirstById m s.messages else s.messages ++ [m])).filter
      (fun x => x.id == m.id)) = [m]
  rw [if_pos hcont]
  exact filter_sortMessagesAsc_singleton _ _ _ (filter_replaceFirstById m y _ h)

/-- C1: sending non-empty text inserts the optimistic `pending`
message under the client id generated before the network call and
submits exactly that id; when the server echo carrying the same id is
upserted (direct response or realtime broadcast follow the same
dispatch), the store holds exactly one entry with that id — the
mapped echo, now `sent` — never a duplicate. -/
theorem send_reconciliation (state : MessagesState) (uid text clientId : String)
    (now : Nat) (echo : ServerMessage)
    (hBody : jsTrim text ≠ "")
    (hFresh : containsId clientId state.messages = false)
    (hEchoId : echo.id = clientId)
    (hSender : echo.sender_id = uid)
    (hDeliv : echo.delivered_at = none)
    (hRead : echo.read_at = none) :
    (handleSend (some uid) text clientId now (.ok echo) state).2
      = [(clientId, jsTrim text)] ∧
    ((messagesReducer state (.upsertMessage
        (optimisticMessage clientId (jsTrim text) now))).messages).filter
        (fun x => x.id == clientId)
      = [optimisticMessage clientId (jsTrim text) now] ∧
    (optimisticMessage clientId (jsTrim text) now).status = .pending ∧
    ((handleSend (some uid) text clientId now (.ok echo) state).1.messages).filter
        (fun x => x.id == clientId)
      = [mapServerMessage (some uid) echo] ∧
    (mapServerMessage (some uid) echo).status = .sent := by
  have hOptFil : ((messagesReducer state (.upsertMessage
      (optimisticMessage clientId (jsTrim text) now))).messages).filter
      (fun x => x.id == clientId)
      = [optimisticMessage clientId (jsTrim text) now] :=
    filter_upsert state (optimisticMessage clientId (jsTrim text) now) (Or.inl hFresh)
  have hMapId : (mapServerMessage (some uid) echo).id = clientId := by
    simpa [mapServerMessage] using hEchoId
  have hsend1 : (handleSend (some uid) text clientId now (.ok echo) state).1
      = messagesReducer
          (messagesReducer state (.upsertMessage
            (optimisticMessage clientId (jsTrim text) now)))
          (.upsertMessage (mapServerMessage (some uid) echo)) := by
    simp only [handleSend]
    rw [if_neg hBody]
  have hsend2 : (handleSend (some uid) text clientId now (.ok echo) state).2
      = [(clientId, jsTrim text)] := by
    simp only [handleSend]
    rw [if_neg hBody]
  have hFil2 : ((messagesReducer state (.upsertMessage
      (optimisticMessage clientId (jsTrim text) now))).messages).filter
      (fun x => x.id == (mapServerMessage (some uid) echo).id)
      = [optimisticMessage clientId (jsTrim text) now] := by
    rw [hMapId]; exact hOptFil
  have hEchoFil := filter_upsert_of_filter_singleton
    (messagesReducer state (.upsertMessage (optimisticMessage clientId (jsTrim text) now)))
    (mapServerMessage (some uid) echo)
    (optimisticMessage clientId (jsTrim text) now) hFil2
  rw [hMapId] at hEchoFil
  refine ⟨hsend2, hOptFil, rfl, ?_, ?_⟩
  · rw [hsend1]
    exact hEchoFil
  · simp [mapServerMessage, hSender, hDeliv, hRead]

/-- Concrete instance of `send_reconciliation`: fresh store, text
`" hi "`, client id `"c1"`, echo with the same id. -/
def c1Echo : ServerMessage :=
  { id := "c1", sender_id := "u", receiver_id := "v", text := some "hi", created_at := 12 }

theorem send_reconciliation_witness :
    (jsTrim " hi " ≠ "" ∧ containsId "c1" initialMessagesState.messages = false) ∧
    ((handleSend (some "u") " hi " "c1" 10 (.ok c1Echo) initialMessagesState).2
      = [("c1", jsTrim " hi ")] ∧
    ((messagesReducer initialMessagesState (.upsertMessage
        (optimisticMessage "c1" (jsTrim " hi ") 10))).messages).filter
        (fun x => x.id == "c1")
      = [optimisticMessage "c1" (jsTrim " hi ") 10] ∧
    (optimisticMessage "c1" (jsTrim " hi ") 10).status = .pending ∧
    ((handleSend (some "u") " hi " "c1" 10 (.ok c1Echo) initialMessagesState).1.messages).filter
        (fun x => x.id == "c1")
      = [mapServerMessage (some "u") c1Echo] ∧
    (mapServerMessage (some "u") c1Echo).status = .sent) :=
  ⟨⟨by decide, by decide⟩,
   send_reconciliation initialMessagesState "u" " hi " "c1" 10 c1Echo
     (by decide) (by decide) rfl rfl rfl rfl⟩

/-! ## Claim C8: failed submission stays visible -/

theorem update_branch (s : MessagesState) (i : String) (p : ChatMsgPatch)
    (hc : containsId i s.messages = true) :
    messagesReducer s (.updateMessage i p)
      = { s with messages := updateFirstById i p s.messages } := by
  show (if containsId i s.messages then
      { s with messages := updateFirstById i p s.messages } else s)
      = { s with messages := updateFirstById i p s.messages }
  rw [if_pos hc]

/-- C8: when submission of a freshly sent message fails, the
optimistic entry stays in the store (the count grows by exactly the
one sent message and is not shrunk by the failure) with its body
intact and status `failed`; exactly one submission was attempted —
the pipeline performs no automatic re-submission. -/
theorem send_failure_visible (state : MessagesState) (currentUserId : Option String)
    (text clientId : String) (now : Nat)
    (hBody : jsTrim text ≠ "")
    (hFresh : containsId clientId state.messages = false) :
    ((handleSend currentUserId text clientId now .err state).1.messages).filter
        (fun x => x.id == clientId)
      = [{ optimisticMessage clientId (jsTrim text) now with status := .failed }] ∧
    (handleSend currentUserId text clientId now .err state).1.messages.length
      = state.messages.length + 1 ∧
    (handleSend currentUserId text clientId now .err state).2
      = [(clientId, jsTrim text)] := by
  have hOptFil : ((messagesReducer state (.upsertMessage
      (optimisticMessage clientId (jsTrim text) now))).messages).filter
      (fun x => x.id == clientId)
      = [optimisticMessage clientId (jsTrim text) now] :=
    filter_upsert state (optimisticMessage clientId (jsTrim text) now) (Or.inl hFresh)
  have hmem : optimisticMessage clientId (jsTrim text) now
      ∈ (messagesReducer state (.upsertMessage
        (optimisticMessage clientId (jsTrim text) now))).messages := by
    have h1 : optimisticMessage clientId (jsTrim text) now
        ∈ ((messagesReducer state (.upsertMessage
          (optimisticMessage clientId (jsTrim text) now))).messages).filter
          (fun x => x.id == clientId) := by
      rw [hOptFil]; exact List.mem_singleton_self _
    exact List.mem_of_mem_filter h1
  have hcont : containsId clientId (messagesReducer state (.upsertMessage
      (optimisticMessage clientId (jsTrim text) now))).messages = true :=
    (containsId_iff _ _).mpr ⟨optimisticMessage clientId (jsTrim text) now, hmem, rfl⟩
  have hsend1 : (handleSend currentUserId text clientId now .err state).1
      = messagesReducer
          (messagesReducer state (.upsertMessage
            (optimisticMessage clientId (jsTrim text) now)))
          (.updateMessage clientId { status := some .failed }) := by
    simp only [handleSend]
    rw [if_neg hBody]
  have hsend2 : (handleSend currentUserId text clientId now .err state).2
      = [(clientId, jsTrim text)] := by
    simp only [handleSend]
    rw [if_neg hBody]
  have hupd := update_branch
    (messagesReducer state (.upsertMessage (optimisticMessage clientId (jsTrim text) now)))
    clientId { status := some .failed } hcont
  have hlen1 : (messagesReducer state (.upsertMessage
      (optimisticMessage clientId (jsTrim text) now))).messages.length
      = state.messages.length + 1 := by
    show (sortMessagesAsc (if containsId clientId state.messages then _
        else state.messages ++ [optimisticMessage clientId (jsTrim text) now])).length = _
    rw [if_neg (by rw [hFresh]; exact Bool.noConfusion)]
    rw [(sortMessagesAsc_perm _).length_eq, List.length_append]
    simp
  refine ⟨?_, ?_, hsend2⟩
  · rw [hsend1, hupd]
    have := filter_updateFirstById clientId { status := some .failed }
      (optimisticMessage clientId (jsTrim text) now)
      (messagesReducer state (.upsertMessage
        (optimisticMessage clientId (jsTrim text) now))).messages rfl hOptFil
    simpa [applyPatch, optimisticMessage] using this
  · rw [hsend1, hupd]
    show (updateFirstById clientId { status := some .failed } _).length = _
    rw [length_updateFirstById, hlen1]

/-- Concrete instance of `send_failure_visible`. -/
theorem send_failure_visible_witness :
    (jsTrim "hi" ≠ "" ∧ containsId "c1" initialMessagesState.messages = false) ∧
    (((handleSend (some "u") "hi" "c1" 7 .err initialMessagesState).1.messages).filter
        (fun x => x.id == "c1")
      = [{ optimisticMessage "c1" (jsTrim "hi") 7 with status := .failed }] ∧
    (handleSend (some "u") "hi" "c1" 7 .err initialMessagesState).1.messages.length
      = initialMessagesState.messages.length + 1 ∧
    (handleSend (some "u") "hi" "c1" 7 .err initialMessagesState).2
      = [("c1", jsTrim "hi")]) :=
  ⟨⟨by decide, by decide⟩,
   send_failure_visible initialMessagesState (some "u") "hi" "c1" 7
     (by decide) (by decide)⟩

/-! ## Claim C2: retry duplicates the retried message (code bug) -/

/-- C2 failing input: a store holding one `failed` message `"m1"`;
the retry submits the body under the fresh id `"m2"` and succeeds.
`handleRetry` only flips the OLD entry to `pending` and upserts the
echo under the NEW id, so the final store holds TWO entries for the
one retried message: the stale optimistic entry `"m1"` stuck in
`pending` and the reconciled server entry `"m2"` in `sent` — the
claimed single-entry reconciliation fails. -/
theorem retry_duplicates_entry :
    (handleRetry (some "u")
        { id := "m1", text := "hi", sentAt := 1, fromMe := true, status := .failed }
        "m2" 2
        (.ok { id := "m2", sender_id := "u", receiver_id := "v",
               text := some "hi", created_at := 3 })
        { messages := [{ id := "m1", text := "hi", sentAt := 1, fromMe := true,
                         status := .failed }]
          hasMore := false, isFetchingMore := false }).1.messages.map
      (fun x => (x.id, x.status))
      = [("m1", .pending), ("m2", .sent)] := by
  decide

/-! ## Claim C9: anonymity toggle is frame-preserving -/

theorem containsThreadId_iff (i : String) (l : List MessageThread) :
    containsThreadId i l = true ↔ ∃ x ∈ l, x.other_user_id = i := by
  simp [containsThreadId]

theorem setThreadAnonymity_frame (uid : String) (b : Bool) (l : List MessageThread)
    (hN : (l.map (fun t => t.other_user_id)).Nodup) :
    List.Forall₂
      (fun t t' => if t.other_user_id = uid then t' = { t with is_anonymous := b }
        else t' = t)
      l (setThreadAnonymity uid b l) := by
  induction l with
  | nil => constructor
  | cons a t ih =>
      have hN' : a.other_user_id ∉ t.map (fun x => x.other_user_id)
          ∧ (t.map (fun x => x.other_user_id)).Nodup := by
        simpa [List.nodup_cons] using hN
      by_cases ha : (a.other_user_id == uid) = true
      · have haid : a.other_user_id = uid := by simpa using ha
        have hrest : ∀ x ∈ t, x.other_user_id ≠ uid := by
          intro x hx he
          exact hN'.1 (haid ▸ he ▸ List.mem_map_of_mem _ hx)
        show List.Forall₂ _ (a :: t) (if (a.other_user_id == uid) = true then
          { a with is_anonymous := b } :: t else a :: setThreadAnonymity uid b t)
        rw [if_pos ha]
        refine List.Forall₂.cons (by rw [if_pos haid]) ?_
        refine List.forall₂_same.mpr (fun x hx => ?_)
        rw [if_neg (hrest x hx)]
      · have ha' : (a.other_user_id == uid) = false := by simpa using ha
        have haid : a.other_user_id ≠ uid := by simpa using ha'
        show List.Forall₂ _ (a :: t) (if (a.other_user_id == uid) = true then
          { a with is_anonymous := b } :: t else a :: setThreadAnonymity uid b t)
        rw [if_neg ha]
        exact List.Forall₂.cons (by rw [if_neg haid]) (ih hN'.2)

theorem threads_anonymity_branch (ts : ThreadsState) (uid : String) (b : Bool)
    (hc : containsThreadId uid ts.threads = true) :
    threadsReducer ts (.updateThreadAnonymity uid b)
      = { ts with threads := setThreadAnonymity uid b ts.threads } := by
  show (if containsThreadId uid ts.threads then
      { ts with threads := setThreadAnonymity uid b ts.threads } else ts)
      = { ts with threads := setThreadAnonymity uid b ts.threads }
  rw [if_pos hc]

theorem threads_anonymity_branch_none (ts : ThreadsState) (uid : String) (b : Bool)
    (hc : containsThreadId uid ts.threads = false) :
    threadsReducer ts (.updateThreadAnonymity uid b) = ts := by
  show (if containsThreadId uid ts.threads then
      { ts with threads := setThreadAnonymity uid b ts.threads } else ts) = ts
  rw [if_neg (by rw [hc]; exact Bool.noConfusion)]

/-- C9: reacting to the nearness signal flipping to Distant
(`isNearby = false`) only changes presentation-identity state.  On the
conversation screen `checkAnonymity` sets `isAnonymous` and leaves the
message store untouched — identical count, order and content.  On the
thread list, `UPDATE_THREAD_ANONYMITY` leaves `loading` and
`initialLoadComplete` alone and maps each row to itself, except that
the row matching the participant changes exactly its `is_anonymous`
field (rows are assumed unique per participant). -/
theorem anonymity_toggle_frame (s : ChatScreenState) (ts : ThreadsState) (uid : String)
    (hN : (ts.threads.map (fun t => t.other_user_id)).Nodup) :
    (checkAnonymity false s).messagesState = s.messagesState ∧
    (checkAnonymity false s).isAnonymous = true ∧
    (threadsReducer ts (.updateThreadAnonymity uid true)).loading = ts.loading ∧
    (threadsReducer ts (.updateThreadAnonymity uid true)).initialLoadComplete
      = ts.initialLoadComplete ∧
    List.Forall₂
      (fun t t' => if t.other_user_id = uid then t' = { t with is_anonymous := true }
        else t' = t)
      ts.threads (threadsReducer ts (.updateThreadAnonymity uid true)).threads := by
  by_cases hc : containsThreadId uid ts.threads = true
  · rw [threads_anonymity_branch ts uid true hc]
    exact ⟨rfl, rfl, rfl, rfl, setThreadAnonymity_frame uid true ts.threads hN⟩
  · have hc' : containsThreadId uid ts.threads = false := by
      cases hx : containsThreadId uid ts.threads
      · rfl
      · exact absurd hx hc
    rw [threads_anonymity_branch_none ts uid true hc']
    refine ⟨rfl, rfl, rfl, rfl, ?_⟩
    refine List.forall₂_same.mpr (fun x hx => ?_)
    rw [if_neg ?_]
    intro he
    have : containsThreadId uid ts.threads = true :=
      (containsThreadId_iff _ _).mpr ⟨x, hx, he⟩
    rw [this] at hc'
    exact Bool.noConfusion hc'

/-- Concrete instance of `anonymity_toggle_frame`: two thread rows,
toggling the first to anonymous. -/
def c9Threads : ThreadsState :=
  { threads :=
      [{ other_user_id := "p1", other_user := "alice",
         last_message := { id := "m1", sender_id := "p1", receiver_id := "me",
                           text := some "hey", created_at := 9 },
         unread_count := 2, is_anonymous := false },
       { other_user_id := "p2", other_user := "bob",
         last_message := { id := "m2", sender_id := "p2", receiver_id := "me",
                           text := some "yo", created_at := 4 },
         unread_count := 0, is_anonymous := false }]
    loading := false, initialLoadComplete := true }

def c9Screen : ChatScreenState :=
  { messagesState :=
      { messages := [{ id := "m1", text := "hey", sentAt := 9, fromMe := false,
                       status := .sent }]
        hasMore := false, isFetchingMore := false }
    isAnonymous := false }

theorem anonymity_toggle_frame_witness :
    (c9Threads.threads.map (fun t => t.other_user_id)).Nodup ∧
    ((checkAnonymity false c9Screen).messagesState = c9Screen.messagesState ∧
    (checkAnonymity false c9Screen).isAnonymous = true ∧
    (threadsReducer c9Threads (.updateThreadAnonymity "p1" true)).loading
      = c9Threads.loading ∧
    (threadsReducer c9Threads (.updateThreadAnonymity "p1" true)).initialLoadComplete
      = c9Threads.initialLoadComplete ∧
    List.Forall₂
      (fun t t' => if t.other_user_id = "p1" then t' = { t with is_anonymous := true }
        else t' = t)
      c9Threads.threads
      (threadsReducer c9Threads (.updateThreadAnonymity "p1" true)).threads) :=
  ⟨by decide, anonymity_toggle_frame c9Screen c9Threads "p1" (by decide)⟩

/-! ## Claims C5 / C6: store ordering invariants -/

/-- Actions that leave the store's timestamp sequence sorted: the
three sorting actions, the fetch-flag toggle, and in-place updates
whose patch does not touch `sentAt`. -/
def sortPreservingAction : MessagesAction → Prop
  | .setMessages _ _ => True
  | .prependMessages _ _ => True
  | .upsertMessage _ => True
  | .updateMessage _ p => p.sentAt = none
  | .setFetchingMore _ => True

/-- The page actions of claim C5: `setInitial`, `prependOlder` and
`upsert`, with server pages carrying pairwise-distinct ids. -/
def pageAction : MessagesAction → Prop
  | .setMessages ms _ => UniqueIds ms
  | .prependMessages ms _ => UniqueIds ms
  | .upsertMessage _ => True
  | .updateMessage _ _ => False
  | .setFetchingMore _ => False

theorem sortedByTime_of_map_eq {l l' : List ChatMsg}
    (h : l'.map (fun x => x.sentAt) = l.map (fun x => x.sentAt))
    (hs : SortedByTime l) : SortedByTime l' := by
  have h1 : (l.map (fun x => x.sentAt)).Pairwise (· ≤ ·) := List.pairwise_map.mpr hs
  have h2 : (l'.map (fun x => x.sentAt)).Pairwise (· ≤ ·) := h ▸ h1
  exact List.pairwise_map.mp h2

theorem sortedByTime_reducer (s : MessagesState) (a : MessagesAction)
    (hs : SortedByTime s.messages) (ha : sortPreservingAction a) :
    SortedByTime ((messagesReducer s a).messages) := by
  cases a with
  | setMessages ms b => exact sortedByTime_sortMessagesAsc ms
  | prependMessages ms b => exact sortedByTime_sortMessagesAsc _
  | upsertMessage m => exact sortedByTime_sortMessagesAsc _
  | updateMessage i p =>
      by_cases hc : containsId i s.messages = true
      · rw [update_branch s i p hc]
        exact sortedByTime_of_map_eq (map_sentAt_updateFirstById i p s.messages ha) hs
      · have hc' : containsId i s.messages = false := by
          cases hx : containsId i s.messages
          · rfl
          · exact absurd hx hc
        show ((if containsId i s.messages then
          { s with messages := updateFirstById i p s.messages } else s)).messages.Pairwise _
        rw [if_neg (by rw [hc']; exact Bool.noConfusion)]
        exact hs
  | setFetchingMore b => exact hs

theorem sortedByTime_foldl (acts : List MessagesAction) (s : MessagesState)
    (hs : SortedByTime s.messages) (h : ∀ a ∈ acts, sortPreservingAction a) :
    SortedByTime ((acts.foldl messagesReducer s).messages) := by
  induction acts generalizing s with
  | nil => exact hs
  | cons a as ih =>
      exact ih (messagesReducer s a)
        (sortedByTime_reducer s a hs (h a (List.mem_cons_self a as)))
        (fun b hb => h b (List.mem_cons_of_mem a hb))

theorem pageAction_sortPreserving {a : MessagesAction} (h : pageAction a) :
    sortPreservingAction a := by
  cases a with
  | setMessages ms b => trivial
  | prependMessages ms b => trivial
  | upsertMessage m => trivial
  | updateMessage i p => exact h.elim
  | setFetchingMore b => exact h.elim

theorem uniqueIds_reducer_page (s : MessagesState) (a : MessagesAction)
    (hs : UniqueIds s.messages) (ha : pageAction a) :
    UniqueIds ((messagesReducer s a).messages) := by
  cases a with
  | setMessages ms b => exact uniqueIds_sortMessagesAsc ms ha
  | prependMessages ms b =>
      refine uniqueIds_sortMessagesAsc _ ?_
      show ((ms.filter (fun m => !containsId m.id s.messages)
        ++ s.messages).map (fun m => m.id)).Nodup
      rw [List.map_append]
      refine List.Nodup.append ?_ hs ?_
      · have hsub : List.Sublist
            ((ms.filter (fun m => !containsId m.id s.messages)).map (fun m => m.id))
            (ms.map (fun m => m.id)) :=
          (List.filter_sublist ms).map _
        exact List.Nodup.sublist hsub ha
      · intro x hx hy
        rcases List.mem_map.mp hx with ⟨z, hz, hzi⟩
        rcases List.mem_map.mp hy with ⟨w, hw, hwi⟩
        have hzf := List.mem_filter.mp hz
        have hzc : containsId z.id s.messages = true :=
          (containsId_iff _ _).mpr ⟨w, hw, by rw [hwi, hzi]⟩
        have hzfalse : containsId z.id s.messages = false := by
          simpa using hzf.2
        rw [hzc] at hzfalse
        exact Bool.noConfusion hzfalse
  | upsertMessage m => exact uniqueIds_upsert s m hs
  | updateMessage i p => exact ha.elim
  | setFetchingMore b => exact ha.elim

theorem uniqueIds_foldl_page (acts : List MessagesAction) (s : MessagesState)
    (hs : UniqueIds s.messages) (h : ∀ a ∈ acts, pageAction a) :
    UniqueIds ((acts.foldl messagesReducer s).messages) := by
  induction acts generalizing s with
  | nil => exact hs
  | cons a as ih =>
      exact ih (messagesReducer s a)
        (uniqueIds_reducer_page s a hs (h a (List.mem_cons_self a as)))
        (fun b hb => h b (List.mem_cons_of_mem a hb))

theorem pairwise_lt_of_sorted_nodup {l : List ChatMsg}
    (hs : SortedByTime l) (hn : (l.map (fun x => x.sentAt)).Nodup) :
    l.Pairwise (fun a b => a.sentAt < b.sentAt) := by
  induction l with
  | nil => constructor
  | cons a t ih =>
      rcases List.pairwise_cons.mp hs with ⟨h1, h2⟩
      have hn' : a.sentAt ∉ t.map (fun x => x.sentAt)
          ∧ (t.map (fun x => x.sentAt)).Nodup := by
        simpa [List.nodup_cons] using hn
      refine List.pairwise_cons.mpr ⟨?_, ih h2 hn'.2⟩
      intro x hx
      refine Nat.lt_of_le_of_ne (h1 x hx) ?_
      intro he
      exact hn'.1 (he ▸ List.mem_map_of_mem _ hx)

theorem insertByTime_cons_of_head (m : ChatMsg) (l : List ChatMsg)
    (h : ∀ x ∈ l, ¬ x.sentAt < m.sentAt) :
    insertByTime m l = m :: l := by
  cases l with
  | nil => rfl
  | cons a t =>
      show (if a.sentAt < m.sentAt then a :: insertByTime m t else m :: a :: t)
        = m :: a :: t
      rw [if_neg (h a (List.mem_cons_self a t))]

/-- Stability of the sort on insertion of a LAST element: sorting a
sorted list with one message appended places that message after every
element whose timestamp is `≤` its own — in particular after every
equal-timestamp element — and before all strictly later ones. -/
theorem sortAsc_append_singleton (m : ChatMsg) (l : List ChatMsg)
    (hl : SortedByTime l) :
    ∃ l₁ l₂, l = l₁ ++ l₂ ∧ sortMessagesAsc (l ++ [m]) = l₁ ++ m :: l₂ ∧
      (∀ x ∈ l₁, x.sentAt ≤ m.sentAt) ∧ (∀ x ∈ l₂, m.sentAt < x.sentAt) := by
  induction l with
  | nil => exact ⟨[], [], rfl, rfl, by simp, by simp⟩
  | cons h t ih =>
      rcases List.pairwise_cons.mp hl with ⟨hh, ht⟩
      rcases ih ht with ⟨t₁, t₂, hsplit, hsort, h₁, h₂⟩
      have hstep : sortMessagesAsc ((h :: t) ++ [m])
          = insertByTime h (sortMessagesAsc (t ++ [m])) := rfl
      by_cases hc : h.sentAt ≤ m.sentAt
      · refine ⟨h :: t₁, t₂, by rw [List.cons_append, ← hsplit], ?_, ?_, h₂⟩
        · rw [hstep, hsort]
          rw [insertByTime_cons_of_head h (t₁ ++ m :: t₂) ?_]
          · rfl
          intro x hx
          rcases List.mem_append.mp hx with hx | hx
          · have hxt : x ∈ t := hsplit ▸ List.mem_append_left t₂ hx
            exact Nat.not_lt.mpr (hh x hxt)
          · rcases List.mem_cons.mp hx with rfl | hx
            · exact Nat.not_lt.mpr hc
            · have hxt : x ∈ t := hsplit ▸ List.mem_append_right t₁ hx
              exact Nat.not_lt.mpr (hh x hxt)
        · intro x hx
          rcases List.mem_cons.mp hx with rfl | hx
          · exact hc
          · exact h₁ x hx
      · have hmh : m.sentAt < h.sentAt := Nat.not_le.mp hc
        have ht₁ : t₁ = [] := by
          cases t₁ with
          | nil => rfl
          | cons x t₁' =>
              have hx : x ∈ t :=
                hsplit ▸ List.mem_append_left t₂ (List.mem_cons_self x t₁')
              have hhx : h.sentAt ≤ x.sentAt := hh x hx
              have hxm : x.sentAt ≤ m.sentAt := h₁ x (List.mem_cons_self x t₁')
              omega
        subst ht₁
        simp only [List.nil_append] at hsplit hsort
        refine ⟨[], h :: t₂, by rw [List.nil_append, hsplit], ?_, by simp, ?_⟩
        · rw [hstep, hsort]
          show (if m.sentAt < h.sentAt then m :: insertByTime h t₂ else h :: m :: t₂)
            = [] ++ m :: h :: t₂
          rw [if_pos hmh,
            insertByTime_cons_of_head h t₂
              (fun x hx => Nat.not_lt.mpr (hh x (hsplit ▸ hx)))]
          rfl
        · intro x hx
          rcases List.mem_cons.mp hx with rfl | hx
          · exact hmh
          · exact h₂ x hx

/-- Upserting a message whose id is not yet stored into a sorted
store inserts it after every stored message with timestamp `≤` its
own (hence after all equal-`sentAt` messages: stable insertion order
on ties, no reordering by id) and before all strictly later ones. -/
theorem upsert_fresh_stable_position (s : MessagesState) (m : ChatMsg)
    (hs : SortedByTime s.messages) (hFresh : containsId m.id s.messages = false) :
    ∃ l₁ l₂, s.messages = l₁ ++ l₂ ∧
      (messagesReducer s (.upsertMessage m)).messages = l₁ ++ m :: l₂ ∧
      (∀ x ∈ l₁, x.sentAt ≤ m.sentAt) ∧ (∀ x ∈ l₂, m.sentAt < x.sentAt) := by
  have hred : (messagesReducer s (.upsertMessage m)).messages
      = sortMessagesAsc (s.messages ++ [m]) := by
    show sortMessagesAsc (if containsId m.id s.messages then
      replaceFirstById m s.messages else s.messages ++ [m]) = _
    rw [if_neg (by rw [hFresh]; exact Bool.noConfusion)]
  rcases sortAsc_append_singleton m s.messages hs with ⟨l₁, l₂, h1, h2, h3, h4⟩
  exact ⟨l₁, l₂, h1, by rw [hred, h2], h3, h4⟩

/-- C5: after any sequence of `SET_MESSAGES`, `PREPEND_MESSAGES` and
`UPSERT_MESSAGE` actions (with server pages carrying distinct ids)
from the initial state, the store is ascending in `sentAt` — strictly
ascending whenever its timestamps are pairwise distinct — and its ids
stay pairwise distinct; moreover `PREPEND_MESSAGES` never introduces a
duplicate of an id already present: such page entries are dropped
before merging, leaving the count of entries with that id unchanged. -/
theorem page_sequence_sorted_nodup (acts : List MessagesAction)
    (h : ∀ a ∈ acts, pageAction a) :
    SortedByTime ((acts.foldl messagesReducer initialMessagesState).messages) ∧
    UniqueIds ((acts.foldl messagesReducer initialMessagesState).messages) ∧
    (((acts.foldl messagesReducer initialMessagesState).messages.map
        (fun x => x.sentAt)).Nodup →
      ((acts.foldl messagesReducer initialMessagesState).messages).Pairwise
        (fun a b => a.sentAt < b.sentAt)) ∧
    (∀ (s : MessagesState) (ms : List ChatMsg) (b : Bool) (i : String),
      containsId i s.messages = true →
      ((messagesReducer s (.prependMessages ms b)).messages).countP
          (fun x => x.id == i)
        = s.messages.countP (fun x => x.id == i)) := by
  have hsorted : SortedByTime ((acts.foldl messagesReducer initialMessagesState).messages) :=
    sortedByTime_foldl acts initialMessagesState (by constructor)
      (fun a ha => pageAction_sortPreserving (h a ha))
  have hnodup : UniqueIds ((acts.foldl messagesReducer initialMessagesState).messages) :=
    uniqueIds_foldl_page acts initialMessagesState (by constructor) h
  refine ⟨hsorted, hnodup, fun hn => pairwise_lt_of_sorted_nodup hsorted hn, ?_⟩
  intro s ms b i hc
  show ((sortMessagesAsc (ms.filter (fun m => !containsId m.id s.messages)
      ++ s.messages)).countP (fun x => x.id == i)) = _
  rw [(sortMessagesAsc_perm _).countP_eq, List.countP_append]
  have h0 : (ms.filter (fun m => !containsId m.id s.messages)).countP
      (fun x => x.id == i) = 0 := by
    rw [List.countP_eq_zero]
    intro a ha hpa
    have haf := List.mem_filter.mp ha
    have hai : a.id = i := by simpa using hpa
    have hafalse : containsId a.id s.messages = false := by simpa using haf.2
    rw [hai, hc] at hafalse
    exact Bool.noConfusion hafalse
  rw [h0, Nat.zero_add]

/-- C6 counterexample, two reachable states refuting the claim as
stated.  First, the tie-break for equal `createdAt` is NOT ascending
id order: from the initial state, upserting id `"b"` and then id
`"a"` with the same timestamp yields a store in which the two
equal-timestamp messages appear as `"b"` before `"a"`, although
`"a" < "b"` — the comparator only inspects `sentAt` and the stable
sort keeps insertion order on ties.  Second, not even sortedness
holds at EVERY reachable state: `UPDATE_MESSAGE` with a `sentAt`
patch — exactly the dispatch `handleRetry` issues — rewrites a
timestamp in place without re-sorting, reaching a store whose
timestamps are `[3, 2]`, not ascending. -/
theorem tiebreak_not_by_id :
    (((([MessagesAction.upsertMessage
        { id := "b", text := "x", sentAt := 5, fromMe := false, status := .sent },
       MessagesAction.upsertMessage
        { id := "a", text := "y", sentAt := 5, fromMe := false, status := .sent }]).foldl
        messagesReducer initialMessagesState).messages).map (fun x => (x.id, x.sentAt))
      = [("b", 5), ("a", 5)] ∧
    ¬ (("b" : String) ≤ "a")) ∧
    (((([MessagesAction.upsertMessage
        { id := "a", text := "u", sentAt := 1, fromMe := true, status := .failed },
       MessagesAction.upsertMessage
        { id := "b", text := "v", sentAt := 2, fromMe := false, status := .sent },
       MessagesAction.updateMessage "a"
        { status := some .pending, sentAt := some 3 }]).foldl
        messagesReducer initialMessagesState).messages).map (fun x => (x.id, x.sentAt))
      = [("a", 3), ("b", 2)] ∧
    ¬ SortedByTime (([MessagesAction.upsertMessage
        { id := "a", text := "u", sentAt := 1, fromMe := true, status := .failed },
       MessagesAction.upsertMessage
        { id := "b", text := "v", sentAt := 2, fromMe := false, status := .sent },
       MessagesAction.updateMessage "a"
        { status := some .pending, sentAt := some 3 }].foldl
        messagesReducer initialMessagesState).messages)) := by
  refine ⟨⟨by decide, ?_⟩, by decide, ?_⟩
  · rw [String.le_iff_toList_le]
    decide
  · show ¬ List.Pairwise _ _
    decide

/-- C6 amended: at every store state reachable from the initial state
by `SET_MESSAGES`, `PREPEND_MESSAGES`, `UPSERT_MESSAGE`,
`SET_FETCHING_MORE` and `UPDATE_MESSAGE` actions whose patches leave
`sentAt` unchanged (a `sentAt`-rewriting update reaches an unsorted
state — second half of the counterexample), the store is sorted
ascending (non-strictly) by `createdAt`; and ties are kept in stable
insertion order, not id order: upserting a fresh message into a
sorted store places it after every stored message whose `createdAt`
is `≤` its own — in particular after all equal-`createdAt` messages —
and before all strictly later ones. -/
theorem store_sorted_invariant (acts : List MessagesAction)
    (h : ∀ a ∈ acts, sortPreservingAction a) :
    SortedByTime ((acts.foldl messagesReducer initialMessagesState).messages) ∧
    (∀ (s : MessagesState) (m : ChatMsg), SortedByTime s.messages →
      containsId m.id s.messages = false →
      ∃ l₁ l₂, s.messages = l₁ ++ l₂ ∧
        (messagesReducer s (.upsertMessage m)).messages = l₁ ++ m :: l₂ ∧
        (∀ x ∈ l₁, x.sentAt ≤ m.sentAt) ∧ (∀ x ∈ l₂, m.sentAt < x.sentAt)) :=
  ⟨sortedByTime_foldl acts initialMessagesState (by constructor) h,
   fun s m hs hf => upsert_fresh_stable_position s m hs hf⟩

/-- Concrete action sequence for the C5 witness: an initial page, an
older page, and a realtime upsert. -/
def c5Acts : List MessagesAction :=
  [.setMessages
      [{ id := "x1", text := "a", sentAt := 10, fromMe := false, status := .sent },
       { id := "x2", text := "b", sentAt := 20, fromMe := true, status := .sent }] true,
   .prependMessages
      [{ id := "x0", text := "c", sentAt := 5, fromMe := false, status := .sent }] true,
   .upsertMessage
      { id := "x3", text := "d", sentAt := 15, fromMe := true, status := .pending }]

theorem page_sequence_sorted_nodup_witness :
    (∀ a ∈ c5Acts, pageAction a) ∧
    (SortedByTime ((c5Acts.foldl messagesReducer initialMessagesState).messages) ∧
    UniqueIds ((c5Acts.foldl messagesReducer initialMessagesState).messages) ∧
    (((c5Acts.foldl messagesReducer initialMessagesState).messages.map
        (fun x => x.sentAt)).Nodup →
      ((c5Acts.foldl messagesReducer initialMessagesState).messages).Pairwise
        (fun a b => a.sentAt < b.sentAt)) ∧
    (∀ (s : MessagesState) (ms : List ChatMsg) (b : Bool) (i : String),
      containsId i s.messages = true →
      ((messagesReducer s (.prependMessages ms b)).messages).countP
          (fun x => x.id == i)
        = s.messages.countP (fun x => x.id == i))) := by
  have hp : ∀ a ∈ c5Acts, pageAction a := by
    intro a ha
    simp only [c5Acts, List.mem_cons, List.not_mem_nil, or_false] at ha
    rcases ha with rfl | rfl | rfl
    · show UniqueIds _
      unfold UniqueIds
      decide
    · show UniqueIds _
      unfold UniqueIds
      decide
    · trivial
  exact ⟨hp, page_sequence_sorted_nodup c5Acts hp⟩

/-- Concrete action sequence for the C6 witness: two upserts, a
status-only update and the fetch flag. -/
def c6Acts : List MessagesAction :=
  [.upsertMessage { id := "a", text := "u", sentAt := 5, fromMe := true, status := .sent },
   .upsertMessage { id := "b", text := "v", sentAt := 3, fromMe := false, status := .sent },
   .updateMessage "a" { status := some .read },
   .setFetchingMore true]

theorem store_sorted_invariant_witness :
    (∀ a ∈ c6Acts, sortPreservingAction a) ∧
    (SortedByTime ((c6Acts.foldl messagesReducer initialMessagesState).messages) ∧
    (∀ (s : MessagesState) (m : ChatMsg), SortedByTime s.messages →
      containsId m.id s.messages = false →
      ∃ l₁ l₂, s.messages = l₁ ++ l₂ ∧
        (messagesReducer s (.upsertMessage m)).messages = l₁ ++ m :: l₂ ∧
        (∀ x ∈ l₁, x.sentAt ≤ m.sentAt) ∧ (∀ x ∈ l₂, m.sentAt < x.sentAt))) := by
  have hp : ∀ a ∈ c6Acts, sortPreservingAction a := by
    intro a ha
    simp only [c6Acts, List.mem_cons, List.not_mem_nil, or_false] at ha
    rcases ha with rfl | rfl | rfl | rfl
    · trivial
    · trivial
    · rfl
    · trivial
  exact ⟨hp, store_sorted_invariant c6Acts hp⟩

end Zenlit
